import Mathlib

/-!
# Verification of the Intellicat control core (src/Intellicat.py)

Shallow embedding of the pure control logic of `Intellicat.py`:

* servo clamping and the servo-angle store (`clamp_for_servo`, `ServoRig.set_angle`,
  `ServoRig.move_smooth`);
* the live speed control (`SpeedControl.set_speed/faster/slower/effective_*`);
* the session orchestrator: the body of the main `while True:` loop, split at the
  source's own comment boundaries into stages (`hourStep`, `msgsStep`, `startStep`,
  `timeoutStep`, `inferStep`, `rulesStep`) composed by `tick`.

Python floats are modelled as exact rationals (`ℚ`); the claims under study are about
control logic, not rounding.  Wall-clock instants (`time.time()` and
`datetime.datetime.now()`, read several times per loop iteration at essentially the
same instant) are modelled by a single rational `now` per tick.  Side effects on the
hardware (dispense sequence, movement start/stop, peer sends) are recorded as an
`Action` list so that theorems can speak about "no actuator writes" and "no message
sent".
-/

namespace Intellicat

/-! ## Servo limits and clamping (source lines 447-476) -/

/-- The `SERVO_LIMITS` dict: calibrated (min, max) angle per servo id.  Ids outside
1..4 are never used by the program; they are given the degenerate range (0, 0). -/
def SERVO_LIMITS (sid : ℕ) : ℚ × ℚ :=
  if sid = 1 then (0, 180)
  else if sid = 2 then (45, 160)
  else if sid = 3 then (75, 130)
  else if sid = 4 then (50, 130)
  else (0, 0)

/-- The `SERVO_REST` dict: rest angle per servo id. -/
def SERVO_REST (sid : ℕ) : ℚ :=
  if sid = 1 then 0
  else if sid = 2 then 45
  else if sid = 3 then 130
  else if sid = 4 then 50
  else 0

/-- The servo ids actually used by the rig. -/
def servoIds : List ℕ := [1, 2, 3, 4]

/-- Source `clamp_for_servo(sid, a)`: `max(mn, min(mx, a))` for that servo's limits. -/
def clamp_for_servo (sid : ℕ) (a : ℚ) : ℚ :=
  max (SERVO_LIMITS sid).1 (min (SERVO_LIMITS sid).2 a)

/-- The `ServoRig.current_angles` map. -/
abbrev Angles := ℕ → ℚ

/-- Source `ServoRig.set_angle`: clamp and store.  This is the only statement in the
source that mutates `current_angles` (line 530). -/
def set_angle (st : Angles) (sid : ℕ) (a : ℚ) : Angles :=
  Function.update st sid (clamp_for_servo sid a)

/-- Angle stores reachable by the program: the rig starts at `SERVO_REST`
(`current_angles = dict(SERVO_REST)`, and the startup homing writes the same rest
angles through `set_angle`), and every later write — `set_angle` called directly,
from every step of `move_smooth`, from the composite sequences and from the
background oscillation worker — goes through `set_angle`. -/
inductive ReachableAngles : Angles → Prop where
  | init : ReachableAngles SERVO_REST
  | step (st : Angles) (sid : ℕ) (a : ℚ) :
      ReachableAngles st → ReachableAngles (set_angle st sid a)

/-- Every rig servo's stored angle lies within its configured limits. -/
def InRange (st : Angles) : Prop :=
  ∀ sid ∈ servoIds, (SERVO_LIMITS sid).1 ≤ st sid ∧ st sid ≤ (SERVO_LIMITS sid).2

lemma servo_limits_le (sid : ℕ) : (SERVO_LIMITS sid).1 ≤ (SERVO_LIMITS sid).2 := by
  unfold SERVO_LIMITS
  split_ifs <;> norm_num

lemma clamp_for_servo_mem (sid : ℕ) (a : ℚ) :
    (SERVO_LIMITS sid).1 ≤ clamp_for_servo sid a ∧
      clamp_for_servo sid a ≤ (SERVO_LIMITS sid).2 := by
  refine ⟨le_max_left _ _, ?_⟩
  exact max_le (servo_limits_le sid) (min_le_left _ _)

lemma clamp_for_servo_idem (sid : ℕ) (a : ℚ) :
    clamp_for_servo sid (clamp_for_servo sid a) = clamp_for_servo sid a := by
  have h := clamp_for_servo_mem sid a
  unfold clamp_for_servo at *
  rcases h with ⟨h1, h2⟩
  rw [min_eq_right h2, max_eq_right h1]

lemma rest_in_range : InRange SERVO_REST := by
  intro sid hsid
  fin_cases hsid <;> norm_num [SERVO_REST, SERVO_LIMITS]

lemma set_angle_in_range (st : Angles) (sid : ℕ) (a : ℚ) (h : InRange st) :
    InRange (set_angle st sid a) := by
  intro j hj
  by_cases hje : j = sid
  · subst hje
    simpa [set_angle] using clamp_for_servo_mem j a
  · simpa [set_angle, Function.update_noteq hje] using h j hj

/-! ## SpeedControl (source lines 107-190)

The mutable field `speed_mult` is the state; each method becomes a function of it.
`base_step_delay` etc. are fixed at startup, so they are plain parameters. -/

/-- Source `SpeedControl.set_speed`: non-positive values are silently ignored. -/
def set_speed (cur mult : ℚ) : ℚ :=
  if mult ≤ 0 then cur else mult

/-- Source `SpeedControl.faster`: multiply the factor by 1.25. -/
def faster (f : ℚ) : ℚ := f * 1.25

/-- Source `SpeedControl.slower`: divide by 1.25, flooring at 0.05. -/
def slower (f : ℚ) : ℚ :=
  let g := f / 1.25
  if g < 0.05 then 0.05 else g

/-- Source `SpeedControl.effective_step_deg`. -/
def effective_step_deg (base : ℚ) : ℚ := max 0.2 base

/-- Source `SpeedControl.effective_step_delay`. -/
def effective_step_delay (base f : ℚ) : ℚ := max 0.001 (base / f)

/-- Source `SpeedControl.effective_duration`. -/
def effective_duration (f base : ℚ) : ℚ := max 0 (base / f)

/-! ## ServoRig.move_smooth (source lines 535-559)

The call is modelled as the trace it produces: the list of angles written (each
through `set_angle`, hence clamped), the list of per-step sleep lengths, and the
number of log lines emitted.  The live speed factor is an arbitrary function
`fs : ℕ → ℚ` giving the factor observed by the in-loop `effective_step_delay()`
read at iteration `i`; `f0` is the factor at the pre-loop reads. -/

structure MoveResult where
  writes : List (ℕ × ℚ)
  sleeps : List ℚ
  log_count : ℕ
deriving Repr, DecidableEq

/-- Step count of `move_smooth`: `max(1, int(abs(delta) / step_deg))`
(Python `int` truncates; the operand is non-negative, so it is a floor). -/
def move_steps (step_deg delta : ℚ) : ℕ :=
  max 1 (Int.toNat ⌊|delta| / step_deg⌋)

/-- Source `ServoRig.move_smooth(sid, target, duration, label)`. -/
def move_smooth (base_step_deg base_step_delay f0 : ℚ) (fs : ℕ → ℚ)
    (sid : ℕ) (start target0 duration : ℚ) : MoveResult :=
  let target := clamp_for_servo sid target0
  if duration ≤ 0 then
    { writes := [(sid, clamp_for_servo sid target)], sleeps := [], log_count := 1 }
  else
    let step_deg := max 0.2 (effective_step_deg base_step_deg)
    let delta := target - start
    let steps := move_steps step_deg delta
    let eff_duration := effective_duration f0 duration
    let per_step := max (effective_step_delay base_step_delay f0)
      (eff_duration / (steps : ℚ))
    { writes := (List.range steps).map (fun (i : ℕ) =>
        (sid, clamp_for_servo sid (start + delta * ((i : ℚ) + 1) / (steps : ℚ)))),
      sleeps := (List.range steps).map (fun (i : ℕ) =>
        let d := effective_step_delay base_step_delay (fs i)
        if per_step < d then d else per_step),
      log_count := 1 }

/-! ## Session orchestrator (source lines 745-971)

The body of the main `while True:` loop, cut at the source's own comment
boundaries.  Each stage is a function of the wall clock `now`, the external
inputs, and the global mutable state; `tick` is their composition in source
order.  Hardware and link side effects are collected in an `Action` list. -/

/-- Role flag: `--role main` / `--role secondary`. -/
inductive Role where
  | main
  | secondary
deriving DecidableEq, Repr

/-- Startup configuration consumed by the loop. -/
structure Config where
  role : Role
  max_cycles : ℕ
  peer_timeout : ℚ
deriving DecidableEq, Repr

/-- The global mutable state read and written by the loop body (lines 745-766). -/
structure OState where
  session_active : Bool
  movement_on : Bool
  session_start_ts : Option ℚ
  cat_seen : Bool
  close_start_ts : Option ℚ
  local_close_complete : Bool
  waiting_for_peer : Bool
  peer_wait_start_ts : Option ℚ
  current_hour : ℤ
  cycles_this_hour : ℕ
  next_session_time : Option ℚ
  last_distance_score : Option ℤ
  last_infer_time : ℚ
deriving DecidableEq, Repr

/-- Side effects the loop performs on the rig and the peer link. -/
inductive Action where
  | dispense
  | moveStart
  | moveStop
  | send (msg : String)
deriving DecidableEq, Repr

/-- Messages drained from `message_queue`; any unrecognized line is `OTHER`
(it falls through every handler). -/
inductive Msg where
  | MANUAL_START
  | MANUAL_TREAT
  | PI1_DONE
  | PI2_DONE
  | OTHER
deriving DecidableEq, Repr

/-- Python `datetime.now().hour`: hour of day of a wall-clock time in seconds. -/
def hourOf (t : ℚ) : ℤ := ⌊t / 3600⌋ % 24

/-- Python `now_dt.replace(minute=0, second=0, microsecond=0)`: top of the current hour. -/
def topOfHour (t : ℚ) : ℚ := (3600 : ℚ) * (⌊t / 3600⌋ : ℤ)

/-- Source `start_session()` (lines 769-778): raise the session flags and reset the
per-episode detection state; `movement_sequence_start()` is the `moveStart`
effect recorded by the caller. -/
def start_session (now : ℚ) (s : OState) : OState :=
  { s with
      session_active := true
      movement_on := true
      session_start_ts := some now
      cat_seen := false
      close_start_ts := none
      local_close_complete := false }

/-- Source `stop_session()` (lines 781-787): home the rig if the movement task is on,
then clear both flags. -/
def stop_session (s : OState) : OState × List Action :=
  ({ s with movement_on := false, session_active := false },
    if s.movement_on then [Action.moveStop] else [])

/-- Source `schedule_next_hour()` (lines 790-794). -/
def schedule_next_hour (now : ℚ) (s : OState) : OState :=
  { s with next_session_time := some (topOfHour now + 3600) }

/-- Source `handle_close_logic()` (lines 797-805). -/
def handle_close_logic (now : ℚ) (s : OState) : OState :=
  match s.last_distance_score with
  | some d =>
      if 8 < d then
        match s.close_start_ts with
        | none => { s with close_start_ts := some now }
        | some t0 =>
            if 10 ≤ now - t0 then { s with local_close_complete := true } else s
      else { s with close_start_ts := none }
  | none => { s with close_start_ts := none }

/-- Source `is_idle_now()` (lines 808-809). -/
def is_idle_now (s : OState) : Prop :=
  s.session_active = false ∧ s.waiting_for_peer = false ∧ s.movement_on = false

instance (s : OState) : Decidable (is_idle_now s) := by
  unfold is_idle_now
  infer_instance

/-- Hour-change reset (lines 824-830): "Hour change resets quota". -/
def hourStep (cfg : Config) (now : ℚ) (s : OState) : OState :=
  if hourOf now ≠ s.current_hour then
    let s1 := { s with current_hour := hourOf now, cycles_this_hour := 0 }
    if cfg.role = Role.main then
      { s1 with next_session_time := some (topOfHour now) }
    else s1
  else s

/-- One drained message (lines 839-873). -/
def handle_msg (cfg : Config) (now : ℚ) (s : OState) (m : Msg) :
    OState × List Action :=
  match m with
  | Msg.MANUAL_START =>
      if cfg.role = Role.main ∧ s.session_active = false ∧
          s.waiting_for_peer = false ∧ s.cycles_this_hour < cfg.max_cycles then
        ({ s with next_session_time := some now }, [])
      else (s, [])
  | Msg.MANUAL_TREAT =>
      if cfg.role ≠ Role.main then (s, [])
      else if ¬ is_idle_now s then (s, [])
      else (s, [Action.dispense])
  | Msg.PI1_DONE =>
      if cfg.role = Role.secondary ∧ s.session_active = false then
        (start_session now s, [Action.moveStart])
      else (s, [])
  | Msg.PI2_DONE =>
      if cfg.role = Role.main ∧ s.waiting_for_peer = true then
        let s1 := { s with
          waiting_for_peer := false
          peer_wait_start_ts := none
          cycles_this_hour := s.cycles_this_hour + 1 }
        let s2 :=
          if cfg.max_cycles ≤ s1.cycles_this_hour then
            { s1 with next_session_time := none }
          else
            { s1 with next_session_time := some now }
        (s2, [Action.dispense])
      else (s, [])
  | Msg.OTHER => (s, [])

/-- Drain the message queue (lines 833-873), folding `handle_msg` over the batch. -/
def msgsStep (cfg : Config) (now : ℚ) (msgs : List Msg) (s : OState) :
    OState × List Action :=
  msgs.foldl
    (fun sa m =>
      let r := handle_msg cfg now sa.1 m
      (r.1, sa.2 ++ r.2))
    (s, [])

/-- "MAIN starts session on schedule/manual" (lines 876-879). -/
def startStep (cfg : Config) (now : ℚ) (s : OState) : OState × List Action :=
  match s.next_session_time with
  | some t =>
      if cfg.role = Role.main ∧ s.session_active = false ∧
          s.waiting_for_peer = false ∧ t ≤ now ∧
          s.cycles_this_hour < cfg.max_cycles then
        (start_session now s, [Action.moveStart])
      else (s, [])
  | none => (s, [])

/-- "MAIN waiting for secondary timeout" (lines 882-887). -/
def timeoutStep (cfg : Config) (now : ℚ) (s : OState) : OState :=
  match s.peer_wait_start_ts with
  | some t0 =>
      if cfg.role = Role.main ∧ s.waiting_for_peer = true ∧
          cfg.peer_timeout < now - t0 then
        schedule_next_hour now
          { s with waiting_for_peer := false, peer_wait_start_ts := none }
      else s
  | none => s

/-- Inference gate (lines 912-939): runs only while a session is active and at
most every 5 s; `detected` is the external detector's output for this frame
(`none` when no confident cat box). -/
def inferStep (now : ℚ) (detected : Option ℤ) (s : OState) : OState :=
  if s.session_active = true ∧ 5 ≤ now - s.last_infer_time then
    { s with last_infer_time := now, last_distance_score := detected }
  else s

/-- "Session rules" (lines 941-971). -/
def rulesStep (cfg : Config) (now : ℚ) (s : OState) : OState × List Action :=
  if s.session_active = true then
    let s1 :=
      if s.last_distance_score ≠ none then { s with cat_seen := true } else s
    let s2 := handle_close_logic now s1
    let start := s2.session_start_ts.getD 0
    if s2.cat_seen = false ∧ 30 ≤ now - start then
      let r := stop_session s2
      (if cfg.role = Role.main then schedule_next_hour now r.1 else r.1, r.2)
    else if s2.cat_seen = true ∧ s2.local_close_complete = false ∧
        120 ≤ now - start then
      let r := stop_session s2
      (if cfg.role = Role.main then schedule_next_hour now r.1 else r.1, r.2)
    else if s2.local_close_complete = true then
      let r := stop_session s2
      let s3 := { r.1 with local_close_complete := false, cat_seen := false }
      if cfg.role = Role.main then
        ({ s3 with waiting_for_peer := true, peer_wait_start_ts := some now },
          r.2 ++ [Action.send "PI1_DONE"])
      else
        (s3, r.2 ++ [Action.send "PI2_DONE"])
    else (s2, [])
  else (s, [])

/-- One iteration of the main loop, in source order. -/
def tick (cfg : Config) (now : ℚ) (msgs : List Msg) (detected : Option ℤ)
    (s : OState) : OState × List Action :=
  let s1 := hourStep cfg now s
  let r2 := msgsStep cfg now msgs s1
  let r3 := startStep cfg now r2.1
  let s4 := timeoutStep cfg now r3.1
  let s5 := inferStep now detected s4
  let r6 := rulesStep cfg now s5
  (r6.1, r2.2 ++ r3.2 ++ r6.2)

end Intellicat

namespace Intellicat

/-! ## Claim theorems: servo clamping and speed control -/

/-- C1: every angle store reachable by the program — from initialization through
any sequence of writes (direct `set_angle`, `move_smooth` steps, composite
sequences, background oscillation, startup homing, all of which write only via
`set_angle`) — keeps each servo's `currentAngle` within its configured
[min, max] range; moreover every single value written by a `move_smooth` call
lies within the moved servo's configured range, regardless of requested target. -/
theorem reachable_angles_in_range (st : Angles) (h : ReachableAngles st) :
    InRange st ∧
      ∀ (bd bsd f0 : ℚ) (fs : ℕ → ℚ) (sid : ℕ) (start t d : ℚ),
        ∀ w ∈ (move_smooth bd bsd f0 fs sid start t d).writes,
          (SERVO_LIMITS w.1).1 ≤ w.2 ∧ w.2 ≤ (SERVO_LIMITS w.1).2 := by
  constructor
  · induction h with
    | init => exact rest_in_range
    | step st sid a _ ih => exact set_angle_in_range st sid a ih
  · intro bd bsd f0 fs sid start t d w hw
    unfold move_smooth at hw
    split at hw
    · simp only [List.mem_singleton] at hw
      subst hw
      exact clamp_for_servo_mem _ _
    · simp only [List.mem_map, List.mem_range] at hw
      obtain ⟨i, _, rfl⟩ := hw
      exact clamp_for_servo_mem _ _

/-- C1 witness: a concrete reachable state (one wild write request on servo 2)
satisfies the range invariant. -/
theorem reachable_angles_in_range_witness :
    InRange (set_angle SERVO_REST 2 999) ∧
      (SERVO_LIMITS 2).1 ≤ set_angle SERVO_REST 2 999 2 ∧
        set_angle SERVO_REST 2 999 2 ≤ (SERVO_LIMITS 2).2 := by
  have h := reachable_angles_in_range (set_angle SERVO_REST 2 999)
    (ReachableAngles.step _ _ _ ReachableAngles.init)
  exact ⟨h.1, h.1 2 (by decide)⟩

/-- C8: `effective_step_delay` is exactly `max(0.001, base / factor)` and is
monotonically non-increasing in the factor; `faster`/`slower` multiply/divide the
factor by 1.25; and any positive number of repeated `slower` calls leaves the
factor at or above 0.05. -/
theorem speed_control_properties :
    (∀ base f : ℚ, effective_step_delay base f = max 0.001 (base / f)) ∧
    (∀ base f1 f2 : ℚ, 0 < f1 → f1 ≤ f2 →
      effective_step_delay base f2 ≤ effective_step_delay base f1) ∧
    (∀ f : ℚ, faster f = f * 1.25) ∧
    (∀ f : ℚ, 0.05 ≤ f / 1.25 → slower f = f / 1.25) ∧
    (∀ f : ℚ, (0.05 : ℚ) ≤ slower f) ∧
    (∀ (f : ℚ) (n : ℕ), 1 ≤ n → (0.05 : ℚ) ≤ slower^[n] f) := by
  have hslow : ∀ f : ℚ, (0.05 : ℚ) ≤ slower f := by
    intro f
    unfold slower
    simp only
    split
    · exact le_refl _
    · exact le_of_not_lt (by assumption)
  refine ⟨fun base f => rfl, ?_, fun f => rfl, ?_, hslow, ?_⟩
  · intro base f1 f2 h1 h12
    unfold effective_step_delay
    apply max_le (le_max_left _ _)
    rcases le_or_lt base 0 with hb | hb
    · have h2 : (0 : ℚ) < f2 := lt_of_lt_of_le h1 h12
      have : base / f2 ≤ 0 := div_nonpos_iff.mpr (Or.inr ⟨hb, h2.le⟩)
      exact le_trans this (le_trans (by norm_num) (le_max_left _ _))
    · have : base / f2 ≤ base / f1 := by gcongr
      exact le_trans this (le_max_right _ _)
  · intro f hf
    show (if f / 1.25 < (0.05 : ℚ) then (0.05 : ℚ) else f / 1.25) = f / 1.25
    exact if_neg (not_lt.mpr hf)
  · intro f n hn
    induction n with
    | zero => omega
    | succ m ih =>
      rw [Function.iterate_succ_apply']
      exact hslow _

/-- C8 witness: at base delay 0.04 the delay at factor 20 is at most the delay at
factor 15, `faster`/`slower` behave as stated at 15, and five `slower` calls from
0.07 stay at or above 0.05. -/
theorem speed_control_properties_witness :
    (0 : ℚ) < 15 ∧ (15 : ℚ) ≤ 20 ∧ (1 : ℕ) ≤ 5 ∧ (0.05 : ℚ) ≤ (15 : ℚ) / 1.25 ∧
      effective_step_delay 0.04 20 ≤ effective_step_delay 0.04 15 ∧
      faster 15 = 15 * 1.25 ∧ slower 15 = 15 / 1.25 ∧
      (0.05 : ℚ) ≤ slower^[5] 0.07 :=
  ⟨by norm_num, by norm_num, by norm_num, by norm_num,
    speed_control_properties.2.1 0.04 15 20 (by norm_num) (by norm_num),
    speed_control_properties.2.2.1 15,
    speed_control_properties.2.2.2.1 15 (by norm_num),
    speed_control_properties.2.2.2.2.2 0.07 5 (by norm_num)⟩

/-- C10: `set_speed` accepts every strictly positive factor exactly, with no
lower floor (in particular values strictly below the 0.05 floor that `slower`
enforces), and silently ignores non-positive values. -/
theorem set_speed_no_floor :
    (∀ cur x : ℚ, 0 < x → set_speed cur x = x) ∧
    (∀ cur x : ℚ, 0 < x → x < 0.05 → set_speed cur x = x) ∧
    (∀ cur x : ℚ, x ≤ 0 → set_speed cur x = cur) := by
  refine ⟨fun cur x hx => if_neg (not_le.mpr hx), fun cur x hx _ => if_neg (not_le.mpr hx),
    fun cur x hx => if_pos hx⟩

/-- C10 witness: `set_speed` at 0.01 (below the `slower` floor) yields exactly
0.01, and at -3 leaves the factor at 15. -/
theorem set_speed_no_floor_witness :
    (0 : ℚ) < 0.01 ∧ (0.01 : ℚ) < 0.05 ∧ (-3 : ℚ) ≤ 0 ∧
      set_speed 15 0.01 = 0.01 ∧ set_speed 15 (-3) = 15 :=
  ⟨by norm_num, by norm_num, by norm_num,
    set_speed_no_floor.2.1 15 0.01 (by norm_num) (by norm_num),
    set_speed_no_floor.2.2 15 (-3) (by norm_num)⟩

/-! ## Claim theorems: orchestrator commands and handshake -/

/-- A fully idle sample state (hour index 2, quota untouched), used as the base
point of concrete witnesses. -/
def idleState : OState :=
  { session_active := false
    movement_on := false
    session_start_ts := none
    cat_seen := false
    close_start_ts := none
    local_close_complete := false
    waiting_for_peer := false
    peer_wait_start_ts := none
    current_hour := 2
    cycles_this_hour := 0
    next_session_time := none
    last_distance_score := none
    last_infer_time := 0 }

/-- C7: `MANUAL_TREAT` never changes the orchestrator state; it dispenses a
reward (its only effect) exactly when the role is main and the machine is fully
idle (`is_idle_now`: no active session, not waiting for the peer, background
movement off); in every other case it produces no effect at all. -/
theorem manual_treat_policy (cfg : Config) (now : ℚ) (s : OState) :
    (handle_msg cfg now s Msg.MANUAL_TREAT).1 = s ∧
    ((handle_msg cfg now s Msg.MANUAL_TREAT).2 = [Action.dispense] ↔
      cfg.role = Role.main ∧ is_idle_now s) ∧
    (¬ (cfg.role = Role.main ∧ is_idle_now s) →
      (handle_msg cfg now s Msg.MANUAL_TREAT).2 = []) := by
  unfold handle_msg
  by_cases hrole : cfg.role = Role.main
  · by_cases hidle : is_idle_now s
    · simp [hrole, hidle]
    · simp [hrole, hidle]
  · simp [hrole]

/-- C7 witness: while a session is active, `MANUAL_TREAT` on the main role does
not change state or dispense; when fully idle, it dispenses. -/
theorem manual_treat_policy_witness :
    ¬ ((⟨Role.main, 4, 180⟩ : Config).role = Role.main ∧
        is_idle_now { idleState with session_active := true, movement_on := true }) ∧
    (handle_msg ⟨Role.main, 4, 180⟩ 50
        { idleState with session_active := true, movement_on := true }
        Msg.MANUAL_TREAT).1 =
      { idleState with session_active := true, movement_on := true } ∧
    (handle_msg ⟨Role.main, 4, 180⟩ 50
        { idleState with session_active := true, movement_on := true }
        Msg.MANUAL_TREAT).2 = [] ∧
    (handle_msg ⟨Role.main, 4, 180⟩ 50 idleState Msg.MANUAL_TREAT).2 =
      [Action.dispense] := by
  refine ⟨by decide, (manual_treat_policy ⟨Role.main, 4, 180⟩ 50 _).1,
    (manual_treat_policy ⟨Role.main, 4, 180⟩ 50 _).2.2 (by decide),
    (manual_treat_policy ⟨Role.main, 4, 180⟩ 50 idleState).2.1.mpr
      ⟨rfl, by decide⟩⟩

/-- C6: `MANUAL_START` is honored — next-start set to `now`, with no other state
change and no hardware effect — precisely when the role is main, no session is
active, the machine is not waiting for the peer, and the cycle counter is below
the hourly quota; the scheduled-start check of the same tick then starts the
session.  In every other case the command leaves the state (in particular
next-start) completely unchanged. -/
theorem manual_start_policy (cfg : Config) (now : ℚ) (s : OState) :
    (cfg.role = Role.main → s.session_active = false → s.waiting_for_peer = false →
      s.cycles_this_hour < cfg.max_cycles →
      handle_msg cfg now s Msg.MANUAL_START =
        ({ s with next_session_time := some now }, []) ∧
      startStep cfg now { s with next_session_time := some now } =
        (start_session now { s with next_session_time := some now },
          [Action.moveStart]) ∧
      (startStep cfg now
        { s with next_session_time := some now }).1.session_active = true) ∧
    (¬ (cfg.role = Role.main ∧ s.session_active = false ∧
          s.waiting_for_peer = false ∧ s.cycles_this_hour < cfg.max_cycles) →
      handle_msg cfg now s Msg.MANUAL_START = (s, [])) := by
  constructor
  · intro hrole hact hwait hq
    have hcond : cfg.role = Role.main ∧ s.session_active = false ∧
        s.waiting_for_peer = false ∧ s.cycles_this_hour < cfg.max_cycles :=
      ⟨hrole, hact, hwait, hq⟩
    refine ⟨by simp [handle_msg, hcond], ?_, ?_⟩
    · simp [startStep, hrole, hact, hwait, hq, le_refl]
    · simp [startStep, hrole, hact, hwait, hq, le_refl, start_session]
  · intro hcond
    simp [handle_msg, hcond]

/-- C6 witness: after quota-many successful cycles (counter 2 with quota 2), a
further `MANUAL_START` is ignored — no state change, next-start left unset; with
quota available it is honored and the session starts on the same tick. -/
theorem manual_start_policy_witness :
    ¬ ((⟨Role.main, 2, 180⟩ : Config).role = Role.main ∧
        ({ idleState with cycles_this_hour := 2 } : OState).session_active = false ∧
        ({ idleState with cycles_this_hour := 2 } : OState).waiting_for_peer = false ∧
        ({ idleState with cycles_this_hour := 2 } : OState).cycles_this_hour < 2) ∧
    handle_msg ⟨Role.main, 2, 180⟩ 100 { idleState with cycles_this_hour := 2 }
        Msg.MANUAL_START = ({ idleState with cycles_this_hour := 2 }, []) ∧
    (startStep ⟨Role.main, 2, 180⟩ 100
        { idleState with next_session_time := some 100 }).1.session_active = true := by
  refine ⟨by decide, (manual_start_policy ⟨Role.main, 2, 180⟩ 100 _).2 (by decide), ?_⟩
  exact ((manual_start_policy ⟨Role.main, 2, 180⟩ 100 idleState).1 rfl rfl rfl
    (by decide)).2.2

/-- C3: in state WaitingPeer on the main role, `PI2_DONE` (STAGE2_COMPLETE)
dispenses a reward, increments the hourly cycle counter, and clears the wait;
the next start is unset (pause until the hour boundary) when the counter has
reached the quota and `now` (immediate) otherwise.  A wait elapsed strictly
beyond the configured peer timeout instead abandons the wait with no effect
other than rescheduling to the next hour boundary: no dispense, counter
unchanged. -/
theorem waiting_peer_resolution (cfg : Config) (now : ℚ) (s : OState)
    (hrole : cfg.role = Role.main) (hwait : s.waiting_for_peer = true) :
    (handle_msg cfg now s Msg.PI2_DONE =
      ({ s with
          waiting_for_peer := false
          peer_wait_start_ts := none
          cycles_this_hour := s.cycles_this_hour + 1
          next_session_time :=
            if cfg.max_cycles ≤ s.cycles_this_hour + 1 then none else some now },
        [Action.dispense])) ∧
    (∀ t0 : ℚ, s.peer_wait_start_ts = some t0 → cfg.peer_timeout < now - t0 →
      timeoutStep cfg now s =
        { s with
            waiting_for_peer := false
            peer_wait_start_ts := none
            next_session_time := some (topOfHour now + 3600) }) := by
  constructor
  · simp only [handle_msg, hrole, hwait, and_self, if_pos, true_and]
    split <;> simp_all
  · intro t0 ht0 htime
    simp [timeoutStep, ht0, hrole, hwait, htime, schedule_next_hour]

/-- C3 witness: with quota 4 and counter 0, `PI2_DONE` while waiting dispenses
and schedules immediately; a timed-out wait (200 s > 180 s) reschedules to the
next hour boundary with the counter untouched. -/
theorem waiting_peer_resolution_witness :
    (⟨Role.main, 4, 180⟩ : Config).role = Role.main ∧
    ({ idleState with
        waiting_for_peer := true
        peer_wait_start_ts := some 7000 } : OState).waiting_for_peer = true ∧
    handle_msg ⟨Role.main, 4, 180⟩ 7200
        { idleState with waiting_for_peer := true, peer_wait_start_ts := some 7000 }
        Msg.PI2_DONE =
      ({ idleState with
          waiting_for_peer := false
          peer_wait_start_ts := none
          cycles_this_hour := 1
          next_session_time := some 7200 },
        [Action.dispense]) ∧
    timeoutStep ⟨Role.main, 4, 180⟩ 7200
        { idleState with waiting_for_peer := true, peer_wait_start_ts := some 7000 } =
      { idleState with
          waiting_for_peer := false
          peer_wait_start_ts := none
          next_session_time := some 10800 } := by
  have h := waiting_peer_resolution ⟨Role.main, 4, 180⟩ 7200
    { idleState with waiting_for_peer := true, peer_wait_start_ts := some 7000 }
    rfl rfl
  refine ⟨rfl, rfl, ?_, ?_⟩
  · rw [h.1]; decide
  · have ht : topOfHour 7200 + 3600 = 10800 := by
      unfold topOfHour
      norm_num
    rw [h.2 7000 rfl (by norm_num), ht]

/-- C9: for every `move_smooth` call: exactly one log line is emitted; a
non-positive nominal duration jumps straight to the clamped target with exactly
one angle write and no sleep; and for a positive duration, with `n` the step
count `max(1, ⌊|clampedTarget − start| / stepDegree⌋)` — `stepDegree` a fixed
per-process constant `max(0.2, base_step_deg)`, never speed-scaled — and `per`
the per-step sleep floor `max(effectiveStepDelay(f0), effectiveDuration(f0,
duration)/n)`: there are exactly `n ≥ 1` writes, the `i`-th write is the clamped
linear interpolation `start + Δ·(i+1)/n`, the last write is the clamped target,
and the `i`-th sleep is `max(effectiveStepDelay(fs i), per)` — computed from the
factor `fs i` observed at that iteration, so a live speed change is re-read on
the very next step of the in-progress move. -/
theorem move_smooth_spec (bd bsd f0 : ℚ) (fs : ℕ → ℚ) (sid : ℕ)
    (start t0 dur : ℚ) :
    (move_smooth bd bsd f0 fs sid start t0 dur).log_count = 1 ∧
    (dur ≤ 0 →
      (move_smooth bd bsd f0 fs sid start t0 dur).writes =
        [(sid, clamp_for_servo sid t0)] ∧
      (move_smooth bd bsd f0 fs sid start t0 dur).sleeps = []) ∧
    (0 < dur →
      ∀ n : ℕ, n = move_steps (max 0.2 (effective_step_deg bd))
          (clamp_for_servo sid t0 - start) →
      ∀ per : ℚ, per = max (effective_step_delay bsd f0)
          (effective_duration f0 dur / (n : ℚ)) →
      1 ≤ n ∧
      (move_smooth bd bsd f0 fs sid start t0 dur).writes.length = n ∧
      (∀ i : ℕ, i < n →
        (move_smooth bd bsd f0 fs sid start t0 dur).writes[i]? =
          some (sid, clamp_for_servo sid
            (start + (clamp_for_servo sid t0 - start) * ((i : ℚ) + 1) / (n : ℚ)))) ∧
      (move_smooth bd bsd f0 fs sid start t0 dur).writes[n - 1]? =
        some (sid, clamp_for_servo sid t0) ∧
      (∀ i : ℕ, i < n →
        (move_smooth bd bsd f0 fs sid start t0 dur).sleeps[i]? =
          some (max (effective_step_delay bsd (fs i)) per))) := by
  refine ⟨?_, ?_, ?_⟩
  · unfold move_smooth
    split <;> rfl
  · intro hz
    unfold move_smooth
    rw [if_pos hz]
    exact ⟨by rw [clamp_for_servo_idem], rfl⟩
  · intro hpos n hn per hper
    have hn1 : 1 ≤ n := by
      rw [hn]
      exact le_max_left _ _
    have hnq : ((n : ℚ)) ≠ 0 := by
      exact_mod_cast Nat.one_le_iff_ne_zero.mp hn1
    unfold move_smooth
    rw [if_neg (not_le.mpr hpos)]
    dsimp only
    rw [← hn, ← hper]
    refine ⟨hn1, by rw [List.length_map, List.length_range], ?_, ?_, ?_⟩
    · intro i hi
      rw [List.getElem?_map, List.getElem?_range hi, Option.map_some']
    · have hlast : n - 1 < n := by omega
      rw [List.getElem?_map, List.getElem?_range hlast, Option.map_some']
      have hcast : (((n - 1 : ℕ) : ℚ) + 1) = (n : ℚ) := by
        rw [Nat.cast_sub hn1]
        push_cast
        ring
      rw [hcast, mul_div_assoc, div_self hnq, mul_one]
      have hsum : start + (clamp_for_servo sid t0 - start) = clamp_for_servo sid t0 := by
        ring
      rw [hsum, clamp_for_servo_idem]
    · intro i hi
      rw [List.getElem?_map, List.getElem?_range hi, Option.map_some']
      have hmax : ∀ p d : ℚ, (if p < d then d else p) = max d p := by
        intro p d
        rcases le_or_lt d p with hle | hlt
        · rw [if_neg (not_lt.mpr hle), max_eq_right hle]
        · rw [if_pos hlt, max_eq_left hlt.le]
      rw [hmax]

/-- C9 witness: moving servo 2 from 45° towards 50° (base step 1°, duration 2 s,
factor 15 throughout) takes 5 steps, first write 46°, last write exactly the
clamped 50° target, one log line; duration-0 jumps with a single write. -/
theorem move_smooth_spec_witness :
    (0 : ℚ) < 2 ∧
    (move_smooth 1 0.04 15 (fun _ => 15) 2 45 50 2).log_count = 1 ∧
    (move_smooth 1 0.04 15 (fun _ => 15) 2 45 50 2).writes.length = 5 ∧
    (move_smooth 1 0.04 15 (fun _ => 15) 2 45 50 2).writes[4]? =
      some (2, clamp_for_servo 2 50) ∧
    (move_smooth 1 0.04 15 (fun _ => 15) 2 45 50 (-1)).writes =
      [(2, clamp_for_servo 2 50)] := by
  have h5 : (5 : ℕ) = move_steps (max 0.2 (effective_step_deg 1))
      (clamp_for_servo 2 50 - 45) := by
    unfold move_steps effective_step_deg clamp_for_servo SERVO_LIMITS
    norm_num
    decide
  have h := (move_smooth_spec 1 0.04 15 (fun _ => 15) 2 45 50 2).2.2 (by norm_num)
    5 h5 _ rfl
  exact ⟨by norm_num, (move_smooth_spec 1 0.04 15 (fun _ => 15) 2 45 50 2).1,
    h.2.1, h.2.2.2.1,
    ((move_smooth_spec 1 0.04 15 (fun _ => 15) 2 45 50 (-1)).2.1 (by norm_num)).1⟩

/-! ## Frame lemmas: which fields each stage can touch -/

lemma handle_close_logic_frame (now : ℚ) (s : OState) :
    ∃ c b, handle_close_logic now s =
      { s with close_start_ts := c, local_close_complete := b } := by
  obtain ⟨a1, a2, a3, a4, c0, b0, a7, a8, a9, a10, a11, sc, a13⟩ := s
  unfold handle_close_logic
  cases sc with
  | none => exact ⟨none, b0, rfl⟩
  | some d =>
      dsimp only
      by_cases h8 : 8 < d
      · rw [if_pos h8]
        cases c0 with
        | none => exact ⟨some now, b0, rfl⟩
        | some t0 =>
            dsimp only
            by_cases ht : (10 : ℚ) ≤ now - t0
            · rw [if_pos ht]
              exact ⟨some t0, true, rfl⟩
            · rw [if_neg ht]
              exact ⟨some t0, b0, rfl⟩
      · rw [if_neg h8]
        exact ⟨none, b0, rfl⟩

lemma handle_msg_cycles (cfg : Config) (now : ℚ) (s : OState) (m : Msg) :
    s.cycles_this_hour ≤ (handle_msg cfg now s m).1.cycles_this_hour := by
  cases m <;> unfold handle_msg <;> dsimp only <;> repeat' split
  all_goals simp [start_session]

lemma msgs_fold_cycles (cfg : Config) (now : ℚ) (msgs : List Msg) :
    ∀ p : OState × List Action,
      p.1.cycles_this_hour ≤
        (msgs.foldl
          (fun sa m =>
            let r := handle_msg cfg now sa.1 m
            (r.1, sa.2 ++ r.2)) p).1.cycles_this_hour := by
  induction msgs with
  | nil => intro p; exact le_refl _
  | cons m ms ih =>
      intro p
      simp only [List.foldl_cons]
      exact le_trans (handle_msg_cycles cfg now p.1 m)
        (ih ((handle_msg cfg now p.1 m).1, p.2 ++ (handle_msg cfg now p.1 m).2))

lemma startStep_cycles (cfg : Config) (now : ℚ) (s : OState) :
    (startStep cfg now s).1.cycles_this_hour = s.cycles_this_hour := by
  unfold startStep
  cases s.next_session_time <;> dsimp only <;> repeat' split
  all_goals simp [start_session]

lemma timeoutStep_cycles (cfg : Config) (now : ℚ) (s : OState) :
    (timeoutStep cfg now s).cycles_this_hour = s.cycles_this_hour := by
  unfold timeoutStep
  cases s.peer_wait_start_ts <;> dsimp only <;> repeat' split
  all_goals simp [schedule_next_hour]

lemma inferStep_cycles (now : ℚ) (d : Option ℤ) (s : OState) :
    (inferStep now d s).cycles_this_hour = s.cycles_this_hour := by
  unfold inferStep
  split <;> rfl

lemma rulesStep_cycles (cfg : Config) (now : ℚ) (s : OState) :
    (rulesStep cfg now s).1.cycles_this_hour = s.cycles_this_hour := by
  unfold rulesStep
  by_cases hact : s.session_active = true
  · rw [if_pos hact]
    dsimp only
    obtain ⟨c, b, hcb⟩ := handle_close_logic_frame now
      (if s.last_distance_score ≠ none then { s with cat_seen := true } else s)
    rw [hcb]
    by_cases hd : s.last_distance_score ≠ none <;>
      simp only [hd, if_pos, if_neg, if_true, if_false] <;>
      repeat' split
    all_goals simp [stop_session, schedule_next_hour]
  · rw [if_neg hact]

lemma cat_seen_true_eta (s : OState) (h : s.cat_seen = true) :
    { s with cat_seen := true } = s := by
  obtain ⟨a1, a2, a3, a4, a5, a6, a7, a8, a9, a10, a11, a12, a13⟩ := s
  subst h
  rfl

/-- C4: while a session is active with episode start `t0`, the two failure
rules of the session-rules block: with no signal ever observed (score absent,
`cat_seen` still false) and 30 s elapsed, or with a signal observed
(`cat_seen`) but close-confirmation not completing this tick and 120 s elapsed,
the session stops (Active → Idle, movement homed); the main role then
reschedules to the next hour boundary while the secondary role performs no
rescheduling; and on failure nothing is dispensed and no STAGE2_COMPLETE
(`PI2_DONE`) — indeed no peer message at all — is sent. -/
theorem session_failure_rules (cfg : Config) (now : ℚ) (s : OState) (t0 : ℚ)
    (hact : s.session_active = true) (hstart : s.session_start_ts = some t0) :
    (s.last_distance_score = none → s.cat_seen = false → 30 ≤ now - t0 →
      (rulesStep cfg now s).1.session_active = false ∧
      (rulesStep cfg now s).1.movement_on = false ∧
      (cfg.role = Role.main →
        (rulesStep cfg now s).1.next_session_time = some (topOfHour now + 3600)) ∧
      (cfg.role = Role.secondary →
        (rulesStep cfg now s).1.next_session_time = s.next_session_time) ∧
      (rulesStep cfg now s).2 =
        (if s.movement_on = true then [Action.moveStop] else []) ∧
      (∀ msg, Action.send msg ∉ (rulesStep cfg now s).2) ∧
      Action.dispense ∉ (rulesStep cfg now s).2) ∧
    (s.cat_seen = true →
      (handle_close_logic now s).local_close_complete = false → 120 ≤ now - t0 →
      (rulesStep cfg now s).1.session_active = false ∧
      (rulesStep cfg now s).1.movement_on = false ∧
      (cfg.role = Role.main →
        (rulesStep cfg now s).1.next_session_time = some (topOfHour now + 3600)) ∧
      (cfg.role = Role.secondary →
        (rulesStep cfg now s).1.next_session_time = s.next_session_time) ∧
      (rulesStep cfg now s).2 =
        (if s.movement_on = true then [Action.moveStop] else []) ∧
      (∀ msg, Action.send msg ∉ (rulesStep cfg now s).2) ∧
      Action.dispense ∉ (rulesStep cfg now s).2) := by
  constructor
  · intro hscore hcat h30
    unfold rulesStep
    rw [if_pos hact]
    dsimp only
    have hs1 : (if s.last_distance_score ≠ none
        then { s with cat_seen := true } else s) = s := by
      have hne : ¬ s.last_distance_score ≠ none := by simp [hscore]
      rw [if_neg hne]
    rw [hs1]
    obtain ⟨c, b, hcb⟩ := handle_close_logic_frame now s
    rw [hcb]
    cases hrole : cfg.role <;>
      simp [hcat, hstart, h30, stop_session, schedule_next_hour, hrole]
  · intro hcat hnc h120
    unfold rulesStep
    rw [if_pos hact]
    dsimp only
    have hs1 : (if s.last_distance_score ≠ none
        then { s with cat_seen := true } else s) = s := by
      split
      · exact cat_seen_true_eta s hcat
      · rfl
    rw [hs1]
    obtain ⟨c, b, hcb⟩ := handle_close_logic_frame now s
    have hb : b = false := by
      rw [hcb] at hnc
      simpa using hnc
    subst hb
    rw [hcb]
    cases hrole : cfg.role <;>
      simp [hcat, hstart, h120, stop_session, schedule_next_hour, hrole]

lemma hourStep_lcc (cfg : Config) (now : ℚ) (s : OState) :
    (hourStep cfg now s).local_close_complete = s.local_close_complete := by
  unfold hourStep
  repeat' split
  all_goals rfl

lemma handle_msg_lcc (cfg : Config) (now : ℚ) (s : OState) (m : Msg)
    (h : s.local_close_complete = false) :
    (handle_msg cfg now s m).1.local_close_complete = false := by
  cases m <;> unfold handle_msg <;> dsimp only <;> repeat' split
  all_goals simp [start_session, h]

lemma msgsStep_lcc (cfg : Config) (now : ℚ) (msgs : List Msg) (s : OState)
    (h : s.local_close_complete = false) :
    (msgsStep cfg now msgs s).1.local_close_complete = false := by
  unfold msgsStep
  suffices hgen : ∀ p : OState × List Action, p.1.local_close_complete = false →
      (msgs.foldl
        (fun sa m =>
          let r := handle_msg cfg now sa.1 m
          (r.1, sa.2 ++ r.2)) p).1.local_close_complete = false from
    hgen (s, []) h
  induction msgs with
  | nil => intro p hp; exact hp
  | cons m ms ih =>
      intro p hp
      simp only [List.foldl_cons]
      exact ih ((handle_msg cfg now p.1 m).1, p.2 ++ (handle_msg cfg now p.1 m).2)
        (handle_msg_lcc cfg now p.1 m hp)

lemma startStep_lcc (cfg : Config) (now : ℚ) (s : OState)
    (h : s.local_close_complete = false) :
    (startStep cfg now s).1.local_close_complete = false := by
  unfold startStep
  cases s.next_session_time <;> dsimp only <;> repeat' split
  all_goals simp [start_session, h]

lemma timeoutStep_lcc (cfg : Config) (now : ℚ) (s : OState) :
    (timeoutStep cfg now s).local_close_complete = s.local_close_complete := by
  unfold timeoutStep
  cases s.peer_wait_start_ts <;> dsimp only <;> repeat' split
  all_goals simp [schedule_next_hour]

lemma inferStep_lcc (now : ℚ) (d : Option ℤ) (s : OState) :
    (inferStep now d s).local_close_complete = s.local_close_complete := by
  unfold inferStep
  split <;> rfl

lemma handle_close_logic_sets_lcc (now : ℚ) (s : OState)
    (h : s.local_close_complete = false)
    (h2 : (handle_close_logic now s).local_close_complete = true) :
    s.last_distance_score ≠ none := by
  intro hn
  unfold handle_close_logic at h2
  rw [hn] at h2
  dsimp only at h2
  rw [h] at h2
  exact Bool.false_ne_true h2

lemma rulesStep_lcc (cfg : Config) (now : ℚ) (s : OState)
    (h : s.local_close_complete = false) :
    (rulesStep cfg now s).1.local_close_complete = false := by
  unfold rulesStep
  by_cases hact : s.session_active = true
  case neg => rw [if_neg hact]; exact h
  rw [if_pos hact]
  dsimp only
  set s1 := (if s.last_distance_score ≠ none
    then { s with cat_seen := true } else s) with hs1def
  have hs1lcc : s1.local_close_complete = false := by
    rw [hs1def]
    split <;> simp [h]
  have hs1score : s1.last_distance_score = s.last_distance_score := by
    rw [hs1def]
    split <;> rfl
  obtain ⟨c, b, hcb⟩ := handle_close_logic_frame now s1
  cases b with
  | false =>
      rw [hcb]
      split_ifs <;> simp [stop_session, schedule_next_hour]
  | true =>
      have hscore : s.last_distance_score ≠ none := by
        have hx := handle_close_logic_sets_lcc now s1 hs1lcc (by rw [hcb])
        rwa [hs1score] at hx
      have hcat1 : s1.cat_seen = true := by
        rw [hs1def, if_pos hscore]
      rw [hcb]
      cases hrole : cfg.role <;>
        simp [hcat1, stop_session, schedule_next_hour, hrole]

/-- C2: the close-confirmation sub-logic run on every active-session tick: when
the held distance score strictly exceeds the high threshold (8), a not-yet-
started streak timer starts at `now`; a started streak of 10 s or more fires
confirmation; a started streak under 10 s leaves the state untouched; any tick
whose score is at or below the threshold or absent resets the timer to unset.
Confirmation fires exactly once: a full tick entered with confirmation clear
always leaves it clear again — the session rules of the same tick consume a
fired confirmation. -/
theorem close_confirmation (now : ℚ) (s : OState) :
    (∀ d : ℤ, s.last_distance_score = some d → 8 < d → s.close_start_ts = none →
      handle_close_logic now s = { s with close_start_ts := some now }) ∧
    (∀ (d : ℤ) (t0 : ℚ), s.last_distance_score = some d → 8 < d →
      s.close_start_ts = some t0 → 10 ≤ now - t0 →
      handle_close_logic now s = { s with local_close_complete := true }) ∧
    (∀ (d : ℤ) (t0 : ℚ), s.last_distance_score = some d → 8 < d →
      s.close_start_ts = some t0 → now - t0 < 10 →
      handle_close_logic now s = s) ∧
    ((∀ d : ℤ, s.last_distance_score = some d → d ≤ 8) →
      handle_close_logic now s = { s with close_start_ts := none }) ∧
    (∀ (cfg : Config) (msgs : List Msg) (detected : Option ℤ),
      s.local_close_complete = false →
      (tick cfg now msgs detected s).1.local_close_complete = false) := by
  refine ⟨?_, ?_, ?_, ?_, ?_⟩
  · intro d hsc h8 hcl
    unfold handle_close_logic
    rw [hsc]
    dsimp only
    rw [if_pos h8, hcl]
  · intro d t0 hsc h8 hcl ht
    unfold handle_close_logic
    rw [hsc]
    dsimp only
    rw [if_pos h8, hcl]
    dsimp only
    rw [if_pos ht]
  · intro d t0 hsc h8 hcl ht
    unfold handle_close_logic
    rw [hsc]
    dsimp only
    rw [if_pos h8, hcl]
    dsimp only
    rw [if_neg (not_le.mpr ht)]
  · intro hlow
    unfold handle_close_logic
    cases hsc : s.last_distance_score with
    | none => rfl
    | some d =>
        dsimp only
        rw [if_neg (not_lt.mpr (hlow d hsc))]
  · intro cfg msgs detected h
    unfold tick
    dsimp only
    apply rulesStep_lcc
    rw [inferStep_lcc, timeoutStep_lcc]
    apply startStep_lcc
    apply msgsStep_lcc
    rw [hourStep_lcc]
    exact h

/-- A just-started sample session (episode start at time 0), used by witnesses. -/
def activeState : OState :=
  { idleState with
      session_active := true
      movement_on := true
      session_start_ts := some 0 }

/-- C2 witness: at score 9 an unset streak starts (timer := now); a streak
started at 0 fires at `now = 12`; score 5 resets the timer; and a concrete full
tick entered with confirmation clear leaves it clear. -/
theorem close_confirmation_witness :
    ({ activeState with last_distance_score := some 9 } : OState).close_start_ts = none ∧
    handle_close_logic 5 { activeState with last_distance_score := some 9 } =
      { activeState with last_distance_score := some 9, close_start_ts := some 5 } ∧
    handle_close_logic 12 { activeState with last_distance_score := some 9, close_start_ts := some 0 } =
      { activeState with last_distance_score := some 9, close_start_ts := some 0, local_close_complete := true } ∧
    handle_close_logic 3 { activeState with last_distance_score := some 5, close_start_ts := some 0 } =
      { activeState with last_distance_score := some 5, close_start_ts := none } ∧
    (tick ⟨Role.secondary, 4, 180⟩ 5 [] none activeState).1.local_close_complete = false := by
  refine ⟨rfl, ?_, ?_, ?_, ?_⟩
  · exact (close_confirmation 5 _).1 9 rfl (by norm_num) rfl
  · exact (close_confirmation 12 _).2.1 9 0 rfl (by norm_num) rfl (by norm_num)
  · exact (close_confirmation 3 _).2.2.2.1 (by
      intro d hd
      simp at hd
      omega)
  · exact (close_confirmation 5 activeState).2.2.2.2 ⟨Role.secondary, 4, 180⟩ [] none rfl

/-- C4 witness: a main-role session started at 0 with no cat seen stops at
`now = 30` and reschedules to the next hour boundary (3600), homing the rig and
sending nothing. -/
theorem session_failure_rules_witness :
    activeState.session_active = true ∧
    (rulesStep ⟨Role.main, 4, 180⟩ 30 activeState).1.session_active = false ∧
    (rulesStep ⟨Role.main, 4, 180⟩ 30 activeState).2 = [Action.moveStop] ∧
    (∀ msg, Action.send msg ∉ (rulesStep ⟨Role.main, 4, 180⟩ 30 activeState).2) := by
  have h := (session_failure_rules ⟨Role.main, 4, 180⟩ 30 activeState 0
    rfl rfl).1 rfl rfl (by norm_num)
  exact ⟨rfl, h.1, by rw [h.2.2.2.2.1]; rfl, h.2.2.2.2.2.1⟩

/-- C5: an observed hour change (current wall-clock hour differing from the
previously observed hour) resets the cycle counter to 0 and records the new
hour — hence exactly once per change, since a tick in an unchanged hour leaves
the state strictly alone — and, for the main role, unconditionally resets the
next-start schedule to the top of the new hour; within an unchanged hour a full
tick never decreases the counter (it can only grow, via successful cycles). -/
theorem hourly_counter_reset (cfg : Config) (now : ℚ) (s : OState) :
    (hourOf now ≠ s.current_hour →
      (hourStep cfg now s).cycles_this_hour = 0 ∧
      (hourStep cfg now s).current_hour = hourOf now ∧
      (cfg.role = Role.main →
        (hourStep cfg now s).next_session_time = some (topOfHour now)) ∧
      (cfg.role = Role.secondary →
        (hourStep cfg now s).next_session_time = s.next_session_time)) ∧
    (hourOf now = s.current_hour → hourStep cfg now s = s) ∧
    (hourOf now = s.current_hour → ∀ msgs detected,
      s.cycles_this_hour ≤ (tick cfg now msgs detected s).1.cycles_this_hour) := by
  have hsame : hourOf now = s.current_hour → hourStep cfg now s = s := by
    intro h
    unfold hourStep
    rw [if_neg (by simp [h])]
  refine ⟨?_, hsame, ?_⟩
  · intro hne
    unfold hourStep
    rw [if_pos hne]
    cases hrole : cfg.role <;> simp [hrole]
  · intro h msgs detected
    unfold tick
    dsimp only
    rw [hsame h]
    rw [rulesStep_cycles, inferStep_cycles, timeoutStep_cycles, startStep_cycles]
    exact msgs_fold_cycles cfg now msgs (s, [])

/-- C5 witness: at `now = 7200` (hour 2) a state recorded at hour 1 with
counter 3 resets to 0 and (main role) reschedules to the top of hour 2; a state
already at hour 2 is untouched, and a tick there cannot shrink the counter. -/
theorem hourly_counter_reset_witness :
    hourOf 7200 ≠ ({ idleState with current_hour := 1, cycles_this_hour := 3 } :
        OState).current_hour ∧
    hourOf 7200 = (idleState : OState).current_hour ∧
    (hourStep ⟨Role.main, 4, 180⟩ 7200
        { idleState with current_hour := 1, cycles_this_hour := 3 }).cycles_this_hour
      = 0 ∧
    hourStep ⟨Role.main, 4, 180⟩ 7200 idleState = idleState ∧
    idleState.cycles_this_hour ≤
      (tick ⟨Role.main, 4, 180⟩ 7200 [Msg.OTHER] none idleState).1.cycles_this_hour := by
  have h2 : hourOf 7200 = 2 := by
    unfold hourOf
    norm_num
  refine ⟨by rw [h2]; decide, by rw [h2]; rfl, ?_, ?_, ?_⟩
  · exact ((hourly_counter_reset ⟨Role.main, 4, 180⟩ 7200 _).1
      (by rw [h2]; decide)).1
  · exact (hourly_counter_reset ⟨Role.main, 4, 180⟩ 7200 idleState).2.1
      (by rw [h2]; rfl)
  · exact (hourly_counter_reset ⟨Role.main, 4, 180⟩ 7200 idleState).2.2
      (by rw [h2]; rfl) [Msg.OTHER] none

end Intellicat
